import Mathlib

/-!
Shallow embedding of the aggregation core of the H-1B visa dashboard
(`app.py`).  Records model one row of the loaded dataset after the
column renaming of `load_data`; the aggregation operations are the
group-by/sum/sort/top-k computations the dashboard performs on them.
-/

namespace HB1

/-- One row of the loaded dataset, after the column renaming in
`load_data` (app.py lines 35-45).  `City` and `State` are already
normalized to plain strings (missing values become `""`, app.py
lines 269-270). -/
structure Record where
  Year : Int
  EmployerName : String
  City : String
  State : String
  Industry : String
  Initial_Approval : Nat
  Initial_Denial : Nat
  Continuing_Approval : Nat
  Continuing_Denial : Nat
deriving DecidableEq

/-- Derived column `df["Total_Approvals"] = df["Initial_Approval"] +
`df["Continuing_Approval"]` (app.py line 47). -/
def Record.Total_Approvals (r : Record) : Nat :=
  r.Initial_Approval + r.Continuing_Approval

/-- Derived column `df["Total_Denials"] = df["Initial_Denial"] +
`df["Continuing_Denial"]` (app.py line 48). -/
def Record.Total_Denials (r : Record) : Nat :=
  r.Initial_Denial + r.Continuing_Denial

/-- Sum of `Total_Approvals` over a list of records (a pandas `.sum()`). -/
def sumApprovals (l : List Record) : Nat :=
  (l.map Record.Total_Approvals).sum

/-- Sum of `Total_Denials` over a list of records. -/
def sumDenials (l : List Record) : Nat :=
  (l.map Record.Total_Denials).sum

/-- Ascending sort of year keys; pandas sorts group and pivot keys. -/
def sortYears (l : List Int) : List Int :=
  l.insertionSort (fun a b => a ≤ b)

/-- Byte-wise comparison of characters, the order pandas uses on labels. -/
def charLe (a b : Char) : Bool :=
  a.val ≤ b.val

/-- Lexicographic comparison of char lists. -/
def strLeChars : List Char → List Char → Bool
  | [], _ => true
  | _ :: _, [] => false
  | a :: as, b :: bs => if a = b then strLeChars as bs else charLe a b

/-- Lexicographic comparison of strings. -/
def strLe (a b : String) : Bool :=
  strLeChars a.data b.data

/-- Ascending sort of string keys; pandas sorts group and pivot keys. -/
def sortLabels (l : List String) : List String :=
  l.insertionSort (fun a b => strLe a b = true)

/-- The year filter `year_filtered_df = df[df["Year"].isin(selected_years)]`
(app.py line 78). -/
def yearFiltered (records : List Record) (selectedYears : List Int) : List Record :=
  records.filter (fun r => selectedYears.contains r.Year)

/-- The group keys of `year_filtered_df.groupby("Year")` (app.py line 85):
the distinct years of the filtered records, ascending. -/
def yearlyKeys (records : List Record) (selectedYears : List Int) : List Int :=
  sortYears ((yearFiltered records selectedYears).map Record.Year).dedup

/-- The series `year_filtered_df.groupby("Year")["Total_Approvals"].sum()`
evaluated at year `y` (app.py line 85). -/
def yearly_approvals (records : List Record) (selectedYears : List Int) (y : Int) : Nat :=
  sumApprovals ((yearFiltered records selectedYears).filter (fun r => r.Year == y))

/-- The series `year_filtered_df.groupby("Year")["Total_Denials"].sum()`
evaluated at year `y` (app.py line 86). -/
def yearly_denials (records : List Record) (selectedYears : List Int) (y : Int) : Nat :=
  sumDenials ((yearFiltered records selectedYears).filter (fun r => r.Year == y))

/-- Function `calculate_yoy_change` (app.py lines 54-57). -/
def calculate_yoy_change (current_year previous_year : ℚ) : ℚ :=
  if previous_year = 0 then 0
  else ((current_year - previous_year) / previous_year) * 100

/-- The group keys of `groupby("Industry")` (app.py line 136): distinct
industry labels, ascending. -/
def industryKeys (records : List Record) : List String :=
  sortLabels (records.map Record.Industry).dedup

/-- The series `groupby("Industry")["Total_Approvals"].sum()` evaluated at
one industry (app.py line 136). -/
def industryTotal (records : List Record) (ind : String) : Nat :=
  sumApprovals (records.filter (fun r => r.Industry == ind))

/-- The index `.nlargest(10).index` (app.py line 136), generalized from 10 to `n`:
the industry keys ordered by summed approvals descending (ties keep the
ascending key order of the series, as `nlargest` keeps first occurrences),
truncated to `n`. -/
def topIndustries (records : List Record) (n : Nat) : List String :=
  ((industryKeys records).insertionSort
      (fun a b => industryTotal records b ≤ industryTotal records a)).take n

/-- Column `Industry_Category` (app.py lines 140-142): the industry itself when it
is among the top `n`, the literal label `"Others"` otherwise. -/
def industryCategory (records : List Record) (n : Nat) (r : Record) : String :=
  if (topIndustries records n).contains r.Industry then r.Industry else "Others"

/-- A pivot table: row keys (years), column keys (labels), and the cell
values, with absent combinations reading as `0` (`.fillna(0)`). -/
structure Pivot where
  years : List Int
  cols : List String
  cell : Int → String → Nat

/-- The call `pivot_table(values="Total_Approvals", index="Year",
columns="Industry_Category", aggfunc="sum").fillna(0)` (app.py
lines 145-150), before the column reordering. -/
def industryYearlyRaw (records : List Record) (n : Nat) : Pivot :=
  { years := sortYears ((records.map Record.Year).dedup)
    cols := sortLabels ((records.map (industryCategory records n)).dedup)
    cell := fun y c =>
      sumApprovals (records.filter
        (fun r => r.Year == y && industryCategory records n r == c)) }

/-- App.py lines 152-155: `first_year = industry_yearly.index[0]` (an
`IndexError`, modeled as `none`, when the pivot has no rows), then the
columns are reordered by the row of the first year, descending. -/
def topIndustriesPivot (records : List Record) (n : Nat) : Option Pivot :=
  (industryYearlyRaw records n).years.head?.map (fun y0 =>
    { industryYearlyRaw records n with
      cols := (industryYearlyRaw records n).cols.insertionSort
        (fun a b =>
          (industryYearlyRaw records n).cell y0 b
            ≤ (industryYearlyRaw records n).cell y0 a) })

/-- Row keys of an optional pivot (`[]` when the pivot failed to build). -/
def pivotYears : Option Pivot → List Int
  | none => []
  | some p => p.years

/-- Column keys of an optional pivot (`[]` when the pivot failed to build). -/
def pivotCols : Option Pivot → List String
  | none => []
  | some p => p.cols

/-- Cell lookup of an optional pivot (`0` when the pivot failed to build). -/
def pivotCell : Option Pivot → Int → String → Nat
  | none => fun _ _ => 0
  | some p => p.cell

/-- Number of distinct `Industry` values in a record set. -/
def distinctIndustryCount (records : List Record) : Nat :=
  ((records.map Record.Industry).dedup).length

/-- The filter `supply_chain_df = year_filtered_df[year_filtered_df["Industry"]
.isin(target_industries)]` (app.py line 205), generalized over the
watch-list. -/
def watchlistFiltered (records : List Record) (watchlist : List String) : List Record :=
  records.filter (fun r => watchlist.contains r.Industry)

/-- The watch-list pivot (app.py lines 220-225): `pivot_table` of
`Total_Approvals` by (`Year`, `Industry`) over `supply_chain_df`,
`fillna(0)`, no top-N collapsing. -/
def watchlistPivot (records : List Record) (watchlist : List String) : Pivot :=
  { years := sortYears (((watchlistFiltered records watchlist).map Record.Year).dedup)
    cols := sortLabels (((watchlistFiltered records watchlist).map Record.Industry).dedup)
    cell := fun y c =>
      sumApprovals ((watchlistFiltered records watchlist).filter
        (fun r => r.Year == y && r.Industry == c)) }

/-- Employer group keys within one industry (app.py lines 255-256). -/
def employerKeys (records : List Record) (industry : String) : List String :=
  sortLabels (((records.filter (fun r => r.Industry == industry)).map
    Record.EmployerName).dedup)

/-- Summed approvals of one employer within one industry (app.py line 256). -/
def employerTotal (records : List Record) (industry : String) (e : String) : Nat :=
  sumApprovals (records.filter
    (fun r => r.Industry == industry && r.EmployerName == e))

/-- The `groupby("Employer Name")["Total_Approvals"].sum()` series within
one industry (app.py line 256), as employer/total pairs in key order. -/
def employerPairs (records : List Record) (industry : String) : List (String × Nat) :=
  (employerKeys records industry).map (fun e => (e, employerTotal records industry e))

/-- The same series ordered by total descending (ties keep the ascending
key order of the series, as `nlargest` keeps first occurrences). -/
def employerPairsSorted (records : List Record) (industry : String) : List (String × Nat) :=
  (employerPairs records industry).insertionSort (fun a b => b.2 ≤ a.2)

/-- The series `groupby("Employer Name")["Total_Approvals"].sum().nlargest(30)`
(app.py line 256), generalized from 30 to `k`. -/
def topEmployers (records : List Record) (industry : String) (k : Nat) :
    List (String × Nat) :=
  (employerPairsSorted records industry).take k

/-- Case folding of `str.contains(search, case=False)`: does `needle`
start the given char list? -/
def charsLeadWith : List Char → List Char → Bool
  | [], _ => true
  | _ :: _, [] => false
  | a :: as, b :: bs => a == b && charsLeadWith as bs

/-- Does the char list contain `needle` as a contiguous run? -/
def charsContain (needle : List Char) : List Char → Bool
  | [] => needle.isEmpty
  | c :: cs => charsLeadWith needle (c :: cs) || charsContain needle cs

/-- The predicate `filtered_df["Employer Name"].str.contains(search_company,
case=False, na=False)` (app.py line 308).  The pandas default `regex=True`
treats the search text as a regular expression; for search texts free of
regex metacharacters (see `plainSearch`) that semantics coincides with the
case-insensitive literal substring match modeled here, while search texts
that are invalid patterns (such as "C++" or "(") make the source raise
`re.error` instead of returning a mask — an error path outside this model,
which is therefore only faithful on metacharacter-free search texts. -/
def nameMatches (search : String) (name : String) : Bool :=
  charsContain search.toLower.data name.toLower.data

/-- Characters that are special in Python regular expressions; a search
text containing any of them is interpreted (or rejected) by the regex
engine rather than matched literally by `str.contains` at app.py line 308. -/
def regexMetaChars : List Char :=
  ['.', '^', '$', '*', '+', '?', '\u007B', '\u007D',
   '[', ']', '\\', '|', '(', ')']

/-- A search text on which the `regex=True` semantics of `str.contains`
coincides with literal substring matching: no regex metacharacters. -/
def plainSearch (s : String) : Bool :=
  s.data.all (fun c => !(regexMetaChars.contains c))

/-- Stage `if selected_state != "All": filtered_df = filtered_df[filtered_df
["State"] == selected_state]` (app.py lines 298-299). -/
def stageState (state : String) (l : List Record) : List Record :=
  if state != "All" then l.filter (fun r => r.State == state) else l

/-- Stage `if selected_city != "All": ...` (app.py lines 301-302). -/
def stageCity (city : String) (l : List Record) : List Record :=
  if city != "All" then l.filter (fun r => r.City == city) else l

/-- Stage `if selected_industry: filtered_df = filtered_df[filtered_df
["Industry"].isin(selected_industry)]` (app.py lines 304-305); an empty
selection is falsy, so the predicate is skipped. -/
def stageIndustry (industries : List String) (l : List Record) : List Record :=
  if !industries.isEmpty then l.filter (fun r => industries.contains r.Industry) else l

/-- Stage `if search_company: ...str.contains(search_company, case=False...)`
(app.py lines 307-308); an empty search text is falsy. -/
def stageSearch (search : String) (l : List Record) : List Record :=
  if !search.isEmpty then l.filter (fun r => nameMatches search r.EmployerName) else l

/-- The raw-data filter (app.py lines 296-308): the four predicates
applied in order. -/
def filterRecords (state city : String) (industries : List String) (search : String)
    (records : List Record) : List Record :=
  stageSearch search (stageIndustry industries (stageCity city (stageState state records)))

/-- The combined predicate the four filter stages amount to. -/
def passes (state city : String) (industries : List String) (search : String)
    (r : Record) : Bool :=
  (!(state != "All") || r.State == state)
    && (!(city != "All") || r.City == city)
    && (!(!industries.isEmpty) || industries.contains r.Industry)
    && (!(!search.isEmpty) || nameMatches search r.EmployerName)

/-- Sample record of the spec scenario: year 2021, industry "A",
employer "Acme", 10+5 approvals and 1+0 denials. -/
def acme2021 : Record :=
  ⟨2021, "Acme", "", "", "A", 10, 1, 5, 0⟩

/-- Two records in year 2021, industry "A", with 10 and 20 approvals. -/
def sampleC6 : List Record :=
  [⟨2021, "Acme", "", "", "A", 10, 0, 0, 0⟩,
   ⟨2021, "Beta", "", "", "A", 20, 0, 0, 0⟩]

/-- A record set whose single industry label is literally "Others". -/
def recordsOthersLabel : List Record :=
  [⟨2021, "Acme", "", "", "Others", 10, 0, 0, 0⟩]

/-! ## General helper lemmas -/

/-- A membership test by `==` agrees with propositional membership. -/
theorem contains_true_iff {α : Type} [BEq α] [LawfulBEq α] (l : List α) (a : α) :
    l.contains a = true ↔ a ∈ l :=
  List.elem_iff

/-- Splitting a sum of mapped values along a Boolean predicate. -/
theorem sum_filter_not_split {α : Type} (p : α → Bool) (val : α → Nat) (l : List α) :
    ((l.filter p).map val).sum + ((l.filter (fun x => !p x)).map val).sum
      = (l.map val).sum := by
  induction l with
  | nil => simp
  | cons a t ih => cases h : p a <;> simp [List.filter_cons, h] <;> omega

/-- Summing the per-group sums over a duplicate-free key list that covers
all keys of the data equals the total sum. -/
theorem sum_over_groups {α κ : Type} [DecidableEq κ] (key : α → κ) (val : α → Nat)
    (q : κ → α → Bool) (hq : ∀ k x, q k x = true ↔ key x = k) :
    ∀ ks : List κ, ks.Nodup → ∀ l : List α, (∀ x ∈ l, key x ∈ ks) →
      (ks.map (fun k => ((l.filter (q k)).map val).sum)).sum = (l.map val).sum := by
  intro ks
  induction ks with
  | nil =>
      intro _ l hl
      cases l with
      | nil => simp
      | cons a t => exact absurd (hl a (List.mem_cons_self a t)) (List.not_mem_nil _)
  | cons k ks ih =>
      intro hnd l hl
      have hkn : k ∉ ks := (List.nodup_cons.mp hnd).1
      have htl : ks.Nodup := (List.nodup_cons.mp hnd).2
      have hrest : ∀ k' ∈ ks,
          ((l.filter (q k')).map val).sum
            = (((l.filter (fun x => !(q k x))).filter (q k')).map val).sum := by
        intro k' hk'
        rw [List.filter_filter]
        apply congrArg List.sum
        apply congrArg (List.map val)
        apply List.filter_congr
        intro x _
        cases hx : q k' x with
        | false => simp [hx]
        | true =>
            have hkk : q k x = false := by
              cases hqk : q k x with
              | false => rfl
              | true =>
                  have h1 : key x = k := (hq k x).1 hqk
                  have h2 : key x = k' := (hq k' x).1 hx
                  exact absurd (show k ∈ ks by rw [h1.symm.trans h2]; exact hk') hkn
            simp [hx, hkk]
      simp only [List.map_cons, List.sum_cons]
      rw [List.map_congr_left hrest]
      rw [ih htl (l.filter (fun x => !(q k x))) ?cov]
      case cov =>
        intro x hx
        have hxl : x ∈ l := (List.mem_filter.mp hx).1
        have hnq : q k x = false := by
          have hb := (List.mem_filter.mp hx).2
          cases hqk : q k x with
          | false => rfl
          | true => rw [hqk] at hb; simp at hb
        cases List.mem_cons.mp (hl x hxl) with
        | inl he => exact absurd ((hq k x).2 he) (by simp [hnq])
        | inr he => exact he
      exact sum_filter_not_split (q k) val l

/-- A duplicate-free list contained in another list is no longer than it. -/
theorem nodup_length_le {κ : Type} [DecidableEq κ] {l l' : List κ}
    (h : l.Nodup) (hs : ∀ x ∈ l, x ∈ l') : l.length ≤ l'.length :=
  calc l.length = l.toFinset.card := (List.toFinset_card_of_nodup h).symm
    _ ≤ l'.toFinset.card := Finset.card_le_card
        (fun x hx => List.mem_toFinset.mpr (hs x (List.mem_toFinset.mp hx)))
    _ ≤ l'.length := List.toFinset_card_le l'

/-- Sorting a list does not change the sum of a mapped value. -/
theorem sum_map_insertionSort {κ : Type} (rel : κ → κ → Prop) [DecidableRel rel]
    (L : List κ) (f : κ → Nat) :
    ((L.insertionSort rel).map f).sum = (L.map f).sum :=
  ((List.perm_insertionSort rel L).map f).sum_eq

/-! ## Helper lemmas about the embedded operations -/

/-- A non-empty record set yields a pivot with a non-empty year index. -/
theorem rawYears_ne_nil (records : List Record) (n : Nat) (h : records ≠ []) :
    (industryYearlyRaw records n).years ≠ [] := by
  obtain ⟨r, t, rfl⟩ := List.exists_cons_of_ne_nil h
  intro hy
  have hm : r.Year ∈ (industryYearlyRaw (r :: t) n).years := by
    show r.Year ∈ sortYears ((List.map Record.Year (r :: t)).dedup)
    rw [sortYears, List.mem_insertionSort, List.mem_dedup]
    exact List.mem_map_of_mem Record.Year (List.mem_cons_self r t)
  rw [hy] at hm
  exact (List.not_mem_nil _) hm

/-- Unfolding of `topIndustriesPivot` when the year index is non-empty. -/
theorem topIndustriesPivot_eq (records : List Record) (n : Nat) (y0 : Int)
    (rest : List Int) (hy : (industryYearlyRaw records n).years = y0 :: rest) :
    topIndustriesPivot records n
      = some { industryYearlyRaw records n with
          cols := (industryYearlyRaw records n).cols.insertionSort
            (fun a b => (industryYearlyRaw records n).cell y0 b
              ≤ (industryYearlyRaw records n).cell y0 a) } := by
  unfold topIndustriesPivot
  rw [hy]
  rfl

/-- A conditionally applied filter stage is a filter. -/
theorem if_filter_eq (c : Bool) (p : Record → Bool) (l : List Record) :
    (if c then l.filter p else l) = l.filter (fun r => !c || p r) := by
  cases c <;> simp

/-- The four filter stages amount to one filter by `passes`. -/
theorem filterRecords_eq_filter (st ci : String) (inds : List String) (se : String)
    (l : List Record) :
    filterRecords st ci inds se l = l.filter (passes st ci inds se) := by
  unfold filterRecords stageSearch stageIndustry stageCity stageState
  rw [if_filter_eq, if_filter_eq, if_filter_eq, if_filter_eq,
    List.filter_filter, List.filter_filter, List.filter_filter]
  apply List.filter_congr
  intro r _
  simp only [passes]
  cases (!(st != "All") || r.State == st)
    <;> cases (!(ci != "All") || r.City == ci)
    <;> cases (!(!inds.isEmpty) || inds.contains r.Industry)
    <;> cases (!(!se.isEmpty) || nameMatches se r.EmployerName)
    <;> rfl

/-! ## Claims -/

/-- C1: for every non-empty record set and every set of selected years, the
sum over all group years of the approvals component of the yearly totals
equals the sum of `Total_Approvals` over exactly the records whose `Year`
is selected, and likewise for denials with `Total_Denials`. -/
theorem yearlyTotals_sum_eq (records : List Record) (years : List Int)
    (h : records ≠ []) :
    ((yearlyKeys records years).map (yearly_approvals records years)).sum
        = sumApprovals (records.filter (fun r => years.contains r.Year))
    ∧ ((yearlyKeys records years).map (yearly_denials records years)).sum
        = sumDenials (records.filter (fun r => years.contains r.Year)) := by
  have hnd : (yearlyKeys records years).Nodup :=
    (List.perm_insertionSort _ _).symm.nodup (List.nodup_dedup _)
  have hcov : ∀ x ∈ yearFiltered records years, Record.Year x ∈ yearlyKeys records years := by
    intro x hx
    show Record.Year x ∈ sortYears ((yearFiltered records years).map Record.Year).dedup
    rw [sortYears, List.mem_insertionSort, List.mem_dedup]
    exact List.mem_map_of_mem Record.Year hx
  constructor
  · exact sum_over_groups Record.Year Record.Total_Approvals
      (fun k r => r.Year == k) (fun k x => beq_iff_eq)
      (yearlyKeys records years) hnd (yearFiltered records years) hcov
  · exact sum_over_groups Record.Year Record.Total_Denials
      (fun k r => r.Year == k) (fun k x => beq_iff_eq)
      (yearlyKeys records years) hnd (yearFiltered records years) hcov

/-- C1 witness: the theorem applied to the one-record spec scenario. -/
theorem yearlyTotals_sum_eq_witness :
    ([acme2021] ≠ [])
    ∧ (((yearlyKeys [acme2021] [2021]).map (yearly_approvals [acme2021] [2021])).sum
          = sumApprovals ([acme2021].filter (fun r => [(2021 : Int)].contains r.Year))
      ∧ ((yearlyKeys [acme2021] [2021]).map (yearly_denials [acme2021] [2021])).sum
          = sumDenials ([acme2021].filter (fun r => [(2021 : Int)].contains r.Year))) :=
  ⟨List.cons_ne_nil _ _, yearlyTotals_sum_eq [acme2021] [2021] (List.cons_ne_nil _ _)⟩

/-- C2: yoyChange returns `((current - previous) / previous) * 100` when
`previous` is nonzero, and returns `0` when `previous = 0`; in particular
`yoyChange 100 0 = 0`, `yoyChange 150 100 = 50` and `yoyChange 50 100 = -50`. -/
theorem calculate_yoy_change_spec :
    (∀ current previous : ℚ, previous ≠ 0 →
        calculate_yoy_change current previous
          = ((current - previous) / previous) * 100)
    ∧ (∀ current : ℚ, calculate_yoy_change current 0 = 0)
    ∧ calculate_yoy_change 100 0 = 0
    ∧ calculate_yoy_change 150 100 = 50
    ∧ calculate_yoy_change 50 100 = -50 := by
  refine ⟨fun c p hp => ?_, fun c => ?_, ?_, ?_, ?_⟩
  · simp [calculate_yoy_change, hp]
  · simp [calculate_yoy_change]
  · simp [calculate_yoy_change]
  · norm_num [calculate_yoy_change]
  · norm_num [calculate_yoy_change]

/-- C2 witness: the nonzero-previous branch applied at (150, 100). -/
theorem calculate_yoy_change_spec_witness :
    ((100 : ℚ) ≠ 0)
    ∧ calculate_yoy_change 150 100 = ((150 - 100) / 100) * 100 :=
  ⟨by norm_num, calculate_yoy_change_spec.1 150 100 (by norm_num)⟩

/-- C7: filterRecords is idempotent; filtering an already-filtered result
with the same state, city, industry-set and search text returns it
unchanged. -/
theorem filterRecords_idem (st ci : String) (inds : List String) (se : String)
    (l : List Record) :
    filterRecords st ci inds se (filterRecords st ci inds se l)
      = filterRecords st ci inds se l := by
  simp only [filterRecords_eq_filter]
  rw [List.filter_filter]
  apply List.filter_congr
  intro r _
  exact Bool.and_self _

/-- C9: an empty industry multi-selection skips the industry-membership
predicate entirely, so the filter equals the other three stages composed;
equivalently it behaves like selecting every industry present in the data,
while the state, city and search predicates still apply unchanged. -/
theorem filterRecords_empty_industry_selection (st ci se : String) (l : List Record) :
    filterRecords st ci [] se l = stageSearch se (stageCity ci (stageState st l))
    ∧ filterRecords st ci [] se l
        = filterRecords st ci ((l.map Record.Industry).dedup) se l := by
  constructor
  · show stageSearch se (stageIndustry [] (stageCity ci (stageState st l)))
        = stageSearch se (stageCity ci (stageState st l))
    have h1 : stageIndustry ([] : List String) (stageCity ci (stageState st l))
        = stageCity ci (stageState st l) := by
      simp [stageIndustry]
    rw [h1]
  · simp only [filterRecords_eq_filter]
    apply List.filter_congr
    intro r hr
    simp only [passes]
    congr 1
    congr 1
    cases hdd : (l.map Record.Industry).dedup with
    | nil => rfl
    | cons a as =>
        have hmem : r.Industry ∈ (l.map Record.Industry).dedup :=
          List.mem_dedup.mpr (List.mem_map_of_mem _ hr)
        rw [hdd] at hmem
        have hc : (a :: as).contains r.Industry = true :=
          (contains_true_iff _ _).mpr hmem
        simp [hc]
        exact List.mem_cons.mp hmem

/-- C4 counterexample: on the empty record set (e.g. when the year selection
matches no records) `topIndustriesPivot` yields no result: the source takes
`industry_yearly.index[0]` of an empty index, an `IndexError`, modeled as
`none`.  This refutes the claim that every core operation is total. -/
theorem topIndustriesPivot_empty_none :
    topIndustriesPivot ([] : List Record) 10 = none := rfl

/-- C4 (amended): yearlyTotals, yoyChange, watchlistPivot and topEmployers
are total and yield a zero/empty result on the empty record set;
`topIndustriesPivot` produces a result exactly when its record set is
non-empty (an `IndexError` at `industry_yearly.index[0]` otherwise); and
filterRecords is total only for search texts free of regex metacharacters:
`str.contains` at app.py line 308 defaults to `regex=True`, so an invalid
pattern such as "C++" raises `re.error` on any record set including the
empty one, an error path outside this model, whose filterRecords conjunct
is therefore restricted to `plainSearch` texts, on which the regex
semantics coincides with the literal matching modeled. -/
theorem core_operations_totality :
    (∀ (records : List Record) (n : Nat),
        (topIndustriesPivot records n).isSome = true ↔ records ≠ [])
    ∧ (∀ (years : List Int) (y : Int),
        yearly_approvals [] years y = 0 ∧ yearly_denials [] years y = 0)
    ∧ (∀ c p : ℚ, calculate_yoy_change c p
        = if p = 0 then 0 else ((c - p) / p) * 100)
    ∧ (∀ wl : List String,
        (watchlistPivot [] wl).years = []
        ∧ (watchlistPivot [] wl).cols = []
        ∧ ∀ (y : Int) (c : String), (watchlistPivot [] wl).cell y c = 0)
    ∧ (∀ (industry : String) (k : Nat), topEmployers [] industry k = [])
    ∧ (∀ (st ci se : String) (inds : List String), plainSearch se = true →
        filterRecords st ci inds se [] = []) := by
  refine ⟨?_, ?_, ?_, ?_, ?_, ?_⟩
  · intro records n
    constructor
    · intro hsome heq
      subst heq
      have hnone : topIndustriesPivot ([] : List Record) n = none := rfl
      rw [hnone] at hsome
      simp at hsome
    · intro hrec
      obtain ⟨y0, rest, hy⟩ := List.exists_cons_of_ne_nil (rawYears_ne_nil records n hrec)
      rw [topIndustriesPivot_eq records n y0 rest hy]
      rfl
  · intro years y
    exact ⟨rfl, rfl⟩
  · intro c p
    rfl
  · intro wl
    exact ⟨rfl, rfl, fun y c => rfl⟩
  · intro industry k
    show List.take k ([] : List (String × Nat)) = []
    exact List.take_nil
  · intro st ci se inds _hse
    simp [filterRecords_eq_filter]

/-- C4 witness: the plain-search hypothesis discharged at a concrete
metacharacter-free search text. -/
theorem core_operations_totality_witness :
    plainSearch "acme" = true
    ∧ filterRecords "All" "All" [] "acme" [] = [] :=
  ⟨by decide,
   core_operations_totality.2.2.2.2.2 "All" "All" "acme" [] (by decide)⟩

/-- C6: the watch-list pivot sums `Total_Approvals` by (Year, Industry)
over exactly the records whose industry is watch-listed, missing cells are
zero, and the two-record scenario in year 2021 industry "A" with approvals
10 and 20 yields the single cell (2021, "A") = 30. -/
theorem watchlistPivot_spec :
    (∀ (records : List Record) (wl : List String) (y : Int) (c : String), c ∈ wl →
        (watchlistPivot records wl).cell y c
          = sumApprovals (records.filter (fun r => r.Year == y && r.Industry == c)))
    ∧ (∀ (records : List Record) (wl : List String) (y : Int) (c : String),
        records.filter (fun r => r.Year == y && r.Industry == c) = [] →
        (watchlistPivot records wl).cell y c = 0)
    ∧ (watchlistPivot sampleC6 ["A"]).years = [2021]
    ∧ (watchlistPivot sampleC6 ["A"]).cols = ["A"]
    ∧ (watchlistPivot sampleC6 ["A"]).cell 2021 "A" = 30
    ∧ (watchlistPivot sampleC6 ["A"]).cell 2020 "A" = 0 := by
  refine ⟨?_, ?_, by decide, by decide, by decide, by decide⟩
  · intro records wl y c hc
    show sumApprovals ((watchlistFiltered records wl).filter
      (fun r => r.Year == y && r.Industry == c)) = _
    unfold watchlistFiltered
    rw [List.filter_filter]
    apply congrArg
    apply List.filter_congr
    intro r _
    cases h2 : (r.Industry == c) with
    | false => simp [h2]
    | true =>
        have hic : r.Industry = c := beq_iff_eq.mp h2
        have hcc : wl.contains r.Industry = true := by
          rw [hic]; exact (contains_true_iff wl c).mpr hc
        simp [h2, hcc]
        exact fun _ => by rw [hic]; exact hc
  · intro records wl y c h0
    show sumApprovals ((watchlistFiltered records wl).filter
      (fun r => r.Year == y && r.Industry == c)) = 0
    have hnil : (watchlistFiltered records wl).filter
        (fun r => r.Year == y && r.Industry == c) = [] := by
      rw [List.filter_eq_nil_iff]
      intro a ha hpa
      have ha2 : a ∈ records.filter (fun r => wl.contains r.Industry) := ha
      have hal : a ∈ records := (List.mem_filter.mp ha2).1
      have hmm : a ∈ records.filter (fun r => r.Year == y && r.Industry == c) :=
        List.mem_filter.mpr ⟨hal, hpa⟩
      rw [h0] at hmm
      exact (List.not_mem_nil a) hmm
    rw [hnil]
    rfl

/-- C6 witness: the membership hypothesis discharged at the scenario, and
the empty-cell hypothesis discharged at the unmatched year 2020. -/
theorem watchlistPivot_spec_witness :
    (("A" : String) ∈ ["A"]
      ∧ (watchlistPivot sampleC6 ["A"]).cell 2021 "A"
          = sumApprovals (sampleC6.filter (fun r => r.Year == 2021 && r.Industry == "A")))
    ∧ (sampleC6.filter (fun r => r.Year == 2020 && r.Industry == "A") = []
      ∧ (watchlistPivot sampleC6 ["A"]).cell 2020 "A" = 0) :=
  ⟨⟨by simp, watchlistPivot_spec.1 sampleC6 ["A"] 2021 "A" (by simp)⟩,
   ⟨by decide, watchlistPivot_spec.2.1 sampleC6 ["A"] 2020 "A" (by decide)⟩⟩

/-- C3: for every non-empty record set the top-industries pivot exists, has
at most `n + 1` columns (the top `n` industries plus an optional "Others"),
and every year row sums to the total approvals of that year over all records. -/
theorem topIndustriesPivot_bounds_rowsum (records : List Record) (n : Nat)
    (h : records ≠ []) :
    (topIndustriesPivot records n).isSome = true
    ∧ (pivotCols (topIndustriesPivot records n)).length ≤ n + 1
    ∧ ∀ y ∈ pivotYears (topIndustriesPivot records n),
        ((pivotCols (topIndustriesPivot records n)).map
            (pivotCell (topIndustriesPivot records n) y)).sum
          = sumApprovals (records.filter (fun r => r.Year == y)) := by
  obtain ⟨y0, rest, hy⟩ := List.exists_cons_of_ne_nil (rawYears_ne_nil records n h)
  rw [topIndustriesPivot_eq records n y0 rest hy]
  simp only [pivotYears, pivotCols, pivotCell]
  refine ⟨rfl, ?_, ?_⟩
  · rw [List.length_insertionSort]
    have e1 : (industryYearlyRaw records n).cols
        = sortLabels ((records.map (industryCategory records n)).dedup) := rfl
    rw [e1, sortLabels, List.length_insertionSort]
    have hle : ((records.map (industryCategory records n)).dedup).length
        ≤ ("Others" :: topIndustries records n).length := by
      apply nodup_length_le (List.nodup_dedup _)
      intro x hx
      obtain ⟨r, hr, hrx⟩ := List.mem_map.mp (List.mem_dedup.mp hx)
      cases hc : (topIndustries records n).contains r.Industry with
      | true =>
          have hx2 : x = r.Industry := by
            rw [← hrx]
            show (if (topIndustries records n).contains r.Industry = true
                then r.Industry else "Others") = r.Industry
            rw [if_pos hc]
          rw [hx2]
          exact List.mem_cons_of_mem _ ((contains_true_iff _ _).mp hc)
      | false =>
          have hx2 : x = "Others" := by
            rw [← hrx]
            show (if (topIndustries records n).contains r.Industry = true
                then r.Industry else "Others") = "Others"
            rw [if_neg (show ¬(topIndustries records n).contains r.Industry = true by
              rw [hc]; simp)]
          rw [hx2]
          exact List.mem_cons_self _ _
    have htn : (topIndustries records n).length ≤ n := by
      rw [topIndustries]
      exact List.length_take_le _ _
    simp only [List.length_cons] at hle
    omega
  · intro y hyy
    rw [sum_map_insertionSort]
    have e1 : (industryYearlyRaw records n).cols
        = sortLabels ((records.map (industryCategory records n)).dedup) := rfl
    rw [e1, sortLabels, sum_map_insertionSort]
    have hcell : ∀ c ∈ (records.map (industryCategory records n)).dedup,
        (industryYearlyRaw records n).cell y c
          = (((records.filter (fun r => r.Year == y)).filter
              (fun r => industryCategory records n r == c)).map
                Record.Total_Approvals).sum := by
      intro c _
      show sumApprovals (records.filter
        (fun r => r.Year == y && industryCategory records n r == c)) = _
      have hfe : records.filter
            (fun r => r.Year == y && industryCategory records n r == c)
          = records.filter
            (fun r => industryCategory records n r == c && r.Year == y) := by
        apply List.filter_congr
        intro r _
        exact Bool.and_comm _ _
      rw [List.filter_filter, hfe]
      rfl
    rw [List.map_congr_left hcell]
    exact sum_over_groups (industryCategory records n) Record.Total_Approvals
      (fun c r => industryCategory records n r == c) (fun c r => beq_iff_eq)
      ((records.map (industryCategory records n)).dedup) (List.nodup_dedup _)
      (records.filter (fun r => r.Year == y))
      (fun x hx => List.mem_dedup.mpr
        (List.mem_map_of_mem _ (List.mem_filter.mp hx).1))

/-- C3 witness: the theorem applied at the two-record scenario with
`n = 10`. -/
theorem topIndustriesPivot_bounds_rowsum_witness :
    sampleC6 ≠ []
    ∧ (pivotCols (topIndustriesPivot sampleC6 10)).length ≤ 10 + 1 :=
  ⟨by decide, (topIndustriesPivot_bounds_rowsum sampleC6 10 (by decide)).2.1⟩

/-- C8: for every non-empty record set the year index of the pivot is non-empty,
its first year is the earliest, and the columns are ordered descending by
their value in the row of the first year (the single column list is used for
every row of the table by construction). -/
theorem topIndustriesPivot_column_order (records : List Record) (n : Nat)
    (h : records ≠ []) :
    pivotYears (topIndustriesPivot records n) ≠ []
    ∧ (∀ y ∈ pivotYears (topIndustriesPivot records n),
        (pivotYears (topIndustriesPivot records n)).headD 0 ≤ y)
    ∧ List.Pairwise
        (fun a b =>
          pivotCell (topIndustriesPivot records n)
              ((pivotYears (topIndustriesPivot records n)).headD 0) b
            ≤ pivotCell (topIndustriesPivot records n)
              ((pivotYears (topIndustriesPivot records n)).headD 0) a)
        (pivotCols (topIndustriesPivot records n)) := by
  obtain ⟨y0, rest, hy⟩ := List.exists_cons_of_ne_nil (rawYears_ne_nil records n h)
  rw [topIndustriesPivot_eq records n y0 rest hy]
  simp only [pivotYears, pivotCols, pivotCell]
  rw [show ({ industryYearlyRaw records n with
      cols := (industryYearlyRaw records n).cols.insertionSort
        (fun a b => (industryYearlyRaw records n).cell y0 b
          ≤ (industryYearlyRaw records n).cell y0 a) } : Pivot).years
    = y0 :: rest from hy]
  simp only [List.headD_cons]
  refine ⟨List.cons_ne_nil _ _, ?_, ?_⟩
  · intro y hyy
    have hs : List.Sorted (fun a b : Int => a ≤ b)
        (sortYears ((records.map Record.Year).dedup)) :=
      List.sorted_insertionSort _ _
    have hs2 : List.Sorted (fun a b : Int => a ≤ b) (y0 :: rest) := by
      rw [← hy]; exact hs
    rcases List.mem_cons.mp hyy with h1 | h2
    · exact le_of_eq h1.symm
    · exact (List.sorted_cons.mp hs2).1 y h2
  · haveI : IsTotal String
        (fun a b => (industryYearlyRaw records n).cell y0 b
          ≤ (industryYearlyRaw records n).cell y0 a) :=
      ⟨fun a b => Nat.le_total _ _⟩
    haveI : IsTrans String
        (fun a b => (industryYearlyRaw records n).cell y0 b
          ≤ (industryYearlyRaw records n).cell y0 a) :=
      ⟨fun a b c h1 h2 => le_trans h2 h1⟩
    exact List.sorted_insertionSort _ _

/-- C8 witness: the theorem applied at the two-record scenario. -/
theorem topIndustriesPivot_column_order_witness :
    sampleC6 ≠ []
    ∧ pivotYears (topIndustriesPivot sampleC6 10) ≠ [] :=
  ⟨by decide, (topIndustriesPivot_column_order sampleC6 10 (by decide)).1⟩

/-- C5: topEmployers returns at most `k` pairs, and exactly
`min k (number of employers)` of them, with pairwise distinct employers,
sorted so the summed approvals of each entry are at least those of the
next; every returned pair is a real employer of the industry with its true
total; no unreturned employer beats a returned one; and when the industry
has at most `k` employers all of them are returned — so the returned set
is exactly the `k` (or fewer) highest-summing employers. -/
theorem topEmployers_spec (records : List Record) (industry : String) (k : Nat) :
    (topEmployers records industry k).length ≤ k
    ∧ (topEmployers records industry k).length
        = min k (employerKeys records industry).length
    ∧ ((topEmployers records industry k).map Prod.fst).Nodup
    ∧ List.Pairwise (fun a b : String × Nat => b.2 ≤ a.2)
        (topEmployers records industry k)
    ∧ (∀ p ∈ topEmployers records industry k,
        p.1 ∈ employerKeys records industry
          ∧ p.2 = employerTotal records industry p.1)
    ∧ (∀ e ∈ employerKeys records industry,
        e ∉ (topEmployers records industry k).map Prod.fst →
          ∀ p ∈ topEmployers records industry k,
            employerTotal records industry e ≤ p.2)
    ∧ ((employerKeys records industry).length ≤ k →
        ∀ e ∈ employerKeys records industry,
          e ∈ (topEmployers records industry k).map Prod.fst) := by
  haveI : IsTotal (String × Nat) (fun a b : String × Nat => b.2 ≤ a.2) :=
    ⟨fun a b => Nat.le_total _ _⟩
  haveI : IsTrans (String × Nat) (fun a b : String × Nat => b.2 ≤ a.2) :=
    ⟨fun a b c h1 h2 => le_trans h2 h1⟩
  have hsorted : List.Pairwise (fun a b : String × Nat => b.2 ≤ a.2)
      (employerPairsSorted records industry) :=
    List.sorted_insertionSort _ _
  have hmem_pairs : ∀ p : String × Nat, p ∈ employerPairs records industry →
      p.1 ∈ employerKeys records industry
        ∧ p.2 = employerTotal records industry p.1 := by
    intro p hp
    obtain ⟨e, he, hpe⟩ := List.mem_map.mp hp
    cases hpe
    exact ⟨he, rfl⟩
  have hmem_sorted : ∀ p : String × Nat,
      p ∈ employerPairsSorted records industry ↔ p ∈ employerPairs records industry :=
    fun p => List.mem_insertionSort _
  have hslen : (employerPairsSorted records industry).length
      = (employerKeys records industry).length :=
    calc (employerPairsSorted records industry).length
        = (employerPairs records industry).length :=
          List.length_insertionSort _ _
      _ = (employerKeys records industry).length := List.length_map _ _
  refine ⟨List.length_take_le _ _, ?_, ?_, ?_, ?_, ?_, ?_⟩
  · show ((employerPairsSorted records industry).take k).length
        = min k (employerKeys records industry).length
    rw [List.length_take, hslen]
  · have hkeys : (employerKeys records industry).Nodup :=
      (List.perm_insertionSort _ _).symm.nodup (List.nodup_dedup _)
    have hpf : (employerPairs records industry).map Prod.fst
        = employerKeys records industry := by
      rw [employerPairs, List.map_map]
      have hid : ∀ e ∈ employerKeys records industry,
          (Prod.fst ∘ fun e => (e, employerTotal records industry e)) e = id e :=
        fun e _ => rfl
      rw [List.map_congr_left hid, List.map_id]
    have hsn : ((employerPairsSorted records industry).map Prod.fst).Nodup :=
      ((List.perm_insertionSort _ _).map Prod.fst).symm.nodup
        (by rw [hpf]; exact hkeys)
    exact List.Nodup.sublist
      (List.Sublist.map Prod.fst (List.take_sublist _ _)) hsn
  · exact List.Pairwise.sublist (List.take_sublist _ _) hsorted
  · intro p hp
    exact hmem_pairs p ((hmem_sorted p).mp (List.mem_of_mem_take hp))
  · intro e he hne p hp
    have hpair : (e, employerTotal records industry e)
        ∈ employerPairsSorted records industry :=
      (hmem_sorted _).mpr (List.mem_map_of_mem _ he)
    rw [← List.take_append_drop k (employerPairsSorted records industry)] at hpair
    cases List.mem_append.mp hpair with
    | inl hin =>
        exact absurd (List.mem_map_of_mem Prod.fst hin) hne
    | inr hdrop =>
        have hpw := hsorted
        rw [← List.take_append_drop k (employerPairsSorted records industry)] at hpw
        exact (List.pairwise_append.mp hpw).2.2 p hp _ hdrop
  · intro hk e he
    have hlen : (employerPairsSorted records industry).length ≤ k := by
      rw [hslen]; exact hk
    show e ∈ ((employerPairsSorted records industry).take k).map Prod.fst
    rw [List.take_of_length_le hlen]
    exact List.mem_map_of_mem Prod.fst ((hmem_sorted _).mpr (List.mem_map_of_mem _ he))

/-- C5 witness: the all-employers branch discharged at the two-employer
scenario with `k = 3`. -/
theorem topEmployers_spec_witness :
    ((employerKeys sampleC6 "A").length ≤ 3
      ∧ "Acme" ∈ employerKeys sampleC6 "A")
    ∧ "Acme" ∈ (topEmployers sampleC6 "A" 3).map Prod.fst :=
  ⟨⟨by decide, by decide⟩,
   (topEmployers_spec sampleC6 "A" 3).2.2.2.2.2.2 (by decide) "Acme" (by decide)⟩

/-- C10 counterexample: a record set whose single industry is literally
named "Others" has at most 10 distinct industries, yet an "Others" column
is present in the pivot (the top-10 industry "Others" maps to itself), so
presence of "Others" is not equivalent to having more than 10 distinct
industries. -/
theorem topIndustriesPivot_others_collision :
    "Others" ∈ pivotCols (topIndustriesPivot recordsOthersLabel 10)
    ∧ distinctIndustryCount recordsOthersLabel ≤ 10 :=
  ⟨by decide, by decide⟩

/-- C10 (amended): provided the Industry of no record is the literal string
"Others", the "Others" column is present in the top-10 pivot if and only
if the record set has more than 10 distinct Industry values. -/
theorem topIndustriesPivot_others_iff (records : List Record)
    (h : "Others" ∉ records.map Record.Industry) :
    ("Others" ∈ pivotCols (topIndustriesPivot records 10)
      ↔ 10 < distinctIndustryCount records) := by
  by_cases hrec : records = []
  · subst hrec
    have hnone : topIndustriesPivot ([] : List Record) 10 = none := rfl
    rw [hnone]
    simp [pivotCols, distinctIndustryCount]
  · obtain ⟨y0, rest, hy⟩ := List.exists_cons_of_ne_nil (rawYears_ne_nil records 10 hrec)
    rw [topIndustriesPivot_eq records 10 y0 rest hy]
    simp only [pivotCols]
    rw [List.mem_insertionSort]
    have hcols : ("Others" ∈ (industryYearlyRaw records 10).cols
        ↔ ∃ r ∈ records, industryCategory records 10 r = "Others") := by
      constructor
      · intro hm
        have hm2 : "Others" ∈ (records.map (industryCategory records 10)).dedup := by
          have hm3 : "Others"
              ∈ sortLabels ((records.map (industryCategory records 10)).dedup) := hm
          rw [sortLabels, List.mem_insertionSort] at hm3
          exact hm3
        obtain ⟨r, hr, hre⟩ := List.mem_map.mp (List.mem_dedup.mp hm2)
        exact ⟨r, hr, hre⟩
      · rintro ⟨r, hr, hre⟩
        show "Others" ∈ sortLabels ((records.map (industryCategory records 10)).dedup)
        rw [sortLabels, List.mem_insertionSort]
        exact List.mem_dedup.mpr (hre ▸ List.mem_map_of_mem _ hr)
    rw [hcols]
    constructor
    · rintro ⟨r, hr, hre⟩
      have hni : r.Industry ≠ "Others" :=
        fun he => h (he ▸ List.mem_map_of_mem _ hr)
      have hnc : (topIndustries records 10).contains r.Industry = false := by
        cases hc : (topIndustries records 10).contains r.Industry with
        | false => rfl
        | true =>
            exfalso
            apply hni
            have hcat : industryCategory records 10 r = r.Industry := by
              show (if (topIndustries records 10).contains r.Industry = true
                  then r.Industry else "Others") = r.Industry
              rw [if_pos hc]
            rw [hcat] at hre
            exact hre
      have hnotin : r.Industry ∉ topIndustries records 10 := by
        intro hin
        have := (contains_true_iff _ _).mpr hin
        rw [hnc] at this
        simp at this
      by_contra hle
      push_neg at hle
      apply hnotin
      have hkey : r.Industry ∈ industryKeys records := by
        rw [industryKeys, sortLabels, List.mem_insertionSort]
        exact List.mem_dedup.mpr (List.mem_map_of_mem _ hr)
      have hlen : ((industryKeys records).insertionSort
          (fun a b => industryTotal records b ≤ industryTotal records a)).length
            ≤ 10 := by
        rw [List.length_insertionSort, industryKeys, sortLabels,
          List.length_insertionSort]
        exact hle
      rw [topIndustries, List.take_of_length_le hlen, List.mem_insertionSort]
      exact hkey
    · intro hgt
      have hnd : ((industryKeys records).insertionSort
          (fun a b => industryTotal records b ≤ industryTotal records a)).Nodup :=
        (List.perm_insertionSort _ _).symm.nodup
          ((List.perm_insertionSort _ _).symm.nodup (List.nodup_dedup _))
      have hexists : ∃ kk, kk ∈ ((industryKeys records).insertionSort
          (fun a b => industryTotal records b ≤ industryTotal records a))
          ∧ kk ∉ topIndustries records 10 := by
        by_contra hall
        push_neg at hall
        have hlen2 := nodup_length_le hnd hall
        have h1 : ((industryKeys records).insertionSort
            (fun a b => industryTotal records b ≤ industryTotal records a)).length
              = distinctIndustryCount records := by
          rw [List.length_insertionSort, industryKeys, sortLabels,
            List.length_insertionSort]
          rfl
        have h2 : (topIndustries records 10).length ≤ 10 := by
          rw [topIndustries]
          exact List.length_take_le _ _
        omega
      obtain ⟨kk, hks, hknot⟩ := hexists
      have hkd : kk ∈ (records.map Record.Industry).dedup := by
        rw [List.mem_insertionSort, industryKeys, sortLabels,
          List.mem_insertionSort] at hks
        exact hks
      obtain ⟨r, hr, hre⟩ := List.mem_map.mp (List.mem_dedup.mp hkd)
      refine ⟨r, hr, ?_⟩
      have hnc : (topIndustries records 10).contains r.Industry = false := by
        cases hc : (topIndustries records 10).contains r.Industry with
        | false => rfl
        | true =>
            exact absurd ((contains_true_iff _ _).mp hc) (hre ▸ hknot)
      show (if (topIndustries records 10).contains r.Industry = true
          then r.Industry else "Others") = "Others"
      rw [if_neg (show ¬(topIndustries records 10).contains r.Industry = true by
        rw [hnc]; simp)]

/-- C10 amended witness: the no-literal-"Others" hypothesis discharged at
the two-record scenario. -/
theorem topIndustriesPivot_others_iff_witness :
    ("Others" ∉ sampleC6.map Record.Industry)
    ∧ ("Others" ∈ pivotCols (topIndustriesPivot sampleC6 10)
        ↔ 10 < distinctIndustryCount sampleC6) :=
  ⟨by decide, topIndustriesPivot_others_iff sampleC6 (by decide)⟩

end HB1
